import Mathlib

/-!
Shallow embedding of the voting core of the ku-polls application
(`polls/models.py`, `polls/views.py`, migration `0003_remove_choice_votes_vote`).

Timestamps are modelled as integers (seconds); `one_day = 86400`.
The database tables `Question`, `Choice` and `Vote` are modelled as Lean
structures; the vote table (the ledger) is a list of `Vote` records, so
that duplicate rows — which the schema does not rule out, since migration
0003 declares no uniqueness constraint on (user, choice) — are representable.
-/

def one_day : Int := 86400

/-- `polls.models.Question`: `question_text`, `pub_date`, optional `end_date`. -/
structure Question where
  id : Nat
  question_text : String
  pub_date : Int
  end_date : Option Int
deriving DecidableEq, Repr

/-- `polls.models.Choice`: belongs to one question; no stored vote counter
(the `votes` integer field was removed by migration 0003). -/
structure Choice where
  id : Nat
  question : Nat
  choice_text : String
deriving DecidableEq, Repr

/-- `polls.models.Vote`: one row of the vote table, a (choice, user) pair. -/
structure Vote where
  choice : Nat
  user : Nat
deriving DecidableEq, Repr

/-- The fixed environment: the question and choice tables. -/
structure Env where
  questions : List Question
  choices : List Choice
deriving DecidableEq, Repr

/-- `Question.was_published_recently`:
`now - datetime.timedelta(days=1) <= self.pub_date <= now`. -/
def was_published_recently (q : Question) (now : Int) : Bool :=
  decide (now - one_day ≤ q.pub_date) && decide (q.pub_date ≤ now)

/-- `Question.is_published`: `self.pub_date <= now`. -/
def is_published (q : Question) (now : Int) : Bool :=
  decide (q.pub_date ≤ now)

/-- `Question.can_vote`: `if self.end_date: return self.is_published() and
now <= self.end_date` — a datetime is always truthy, so the branch is taken
exactly when `end_date` is not `None` — `return self.is_published()`. -/
def can_vote (q : Question) (now : Int) : Bool :=
  match q.end_date with
  | some e => is_published q now && decide (now ≤ e)
  | none => is_published q now

/-- `get_object_or_404(Question, pk=question_id)`: lookup by primary key. -/
def get_question (env : Env) (question_id : Nat) : Option Question :=
  env.questions.find? (fun q => q.id == question_id)

/-- `question.choice_set.get(pk=cid)`: the choice with primary key `cid`
among the choices belonging to question `qid`. -/
def choice_set_get (env : Env) (qid cid : Nat) : Option Choice :=
  env.choices.find? (fun c => c.id == cid && c.question == qid)

/-- The question a choice (given by id) belongs to: the join used by the
`choice__question` lookups in the source. -/
def choice_question (env : Env) (cid : Nat) : Option Nat :=
  (env.choices.find? (fun c => c.id == cid)).map Choice.question

/-- The row predicate of `Vote.objects.filter(user=user, choice__question=q)`:
matches a vote row against the (question, user) key. -/
def matchKey (env : Env) (qid user : Nat) (v : Vote) : Bool :=
  v.user == user && choice_question env v.choice == some qid

/-- Resolution of `request.POST["choice"]` inside the `vote` view: `KeyError`
(no posted choice) and `Choice.DoesNotExist` both fall to `none`. -/
def post_resolve (env : Env) (qid : Nat) (post : Option Nat) : Option Choice :=
  match post with
  | none => none
  | some cid => choice_set_get env qid cid

/-- Outcome of the `vote` view. `ok` is the redirect to the results page;
`invalidChoice` is the "You didn't select a choice." redisplay;
`multipleVotes` is the uncaught `MultipleObjectsReturned` from
`Vote.objects.get` when the table holds duplicate rows for the key. -/
inductive CastResult where
  | ok
  | notFound
  | invalidChoice
  | multipleVotes
deriving DecidableEq, Repr

/-- `polls.views.vote`: resolve the question (404 if absent), resolve the
posted choice within the question (error redisplay if absent), then
`Vote.objects.get(user=current_user, choice__question=question)`:
if no row exists, `Vote.objects.create` (append a row); if exactly one
exists, reassign its `choice` and save; if several exist the `get` raises.
Note: the view performs no `can_vote` check. -/
def vote (env : Env) (user question_id : Nat) (post : Option Nat)
    (ledger : List Vote) : CastResult × List Vote :=
  match get_question env question_id with
  | none => (CastResult.notFound, ledger)
  | some q =>
    match post_resolve env q.id post with
    | none => (CastResult.invalidChoice, ledger)
    | some c =>
      match ledger.filter (matchKey env q.id user) with
      | [] => (CastResult.ok, ledger ++ [⟨c.id, user⟩])
      | [_] => (CastResult.ok,
          ledger.map (fun v =>
            if matchKey env q.id user v then { v with choice := c.id } else v))
      | _ => (CastResult.multipleVotes, ledger)

/-- Outcome of the `clear` view. `nothingToClear` is the
"You haven't vote." message. -/
inductive ClearResult where
  | ok
  | notFound
  | nothingToClear
  | multipleVotes
deriving DecidableEq, Repr

/-- `polls.views.clear`: resolve the question (404 if absent), then fetch the
user's vote for it; delete it if exactly one exists, report if none. -/
def clear (env : Env) (user question_id : Nat)
    (ledger : List Vote) : ClearResult × List Vote :=
  match get_question env question_id with
  | none => (ClearResult.notFound, ledger)
  | some q =>
    match ledger.filter (matchKey env q.id user) with
    | [] => (ClearResult.nothingToClear, ledger)
    | [_] => (ClearResult.ok, ledger.filter (fun v => !(matchKey env q.id user v)))
    | _ => (ClearResult.multipleVotes, ledger)

/-- `Choice.votes`: `self.vote_set.count()` — derived by counting the vote
rows referencing the choice; there is no stored counter. -/
def votes (cid : Nat) (ledger : List Vote) : Nat :=
  (ledger.filter (fun v => v.choice == cid)).length

/-- `Question.cur_user_voted`:
`Vote.objects.filter(user=user.id, choice__question=self).exists()`. -/
def cur_user_voted (env : Env) (qid user : Nat) (ledger : List Vote) : Bool :=
  ledger.any (matchKey env qid user)

/-- `Question.cur_user_choice`: the `[0]` element of the same filter,
`IndexError` caught and turned into `None`. -/
def cur_user_choice (env : Env) (qid user : Nat) (ledger : List Vote) : Option Nat :=
  ((ledger.filter (matchKey env qid user)).head?).map Vote.choice

/-- One request to the `vote` view: acting user, requested question id, and
the posted choice id (`none` models a POST without a `choice` field). -/
structure Call where
  user : Nat
  question_id : Nat
  post : Option Nat
deriving DecidableEq, Repr

/-- The id of the choice a request would resolve, if any. -/
def resolve_choice (env : Env) (qid : Nat) (post : Option Nat) : Option Nat :=
  (post_resolve env qid post).map Choice.id

/-- Run one `vote` request while tracking, for the observed key `(q, u)`,
the choice id of the most recent successful request for that key. -/
def stepTrack (env : Env) (u q : Nat) (s : List Vote × Option Nat)
    (call : Call) : List Vote × Option Nat :=
  if (vote env call.user call.question_id call.post s.1).1 = CastResult.ok
      ∧ call.user = u ∧ call.question_id = q then
    ((vote env call.user call.question_id call.post s.1).2,
     resolve_choice env q call.post)
  else
    ((vote env call.user call.question_id call.post s.1).2, s.2)

/-- Progress of one in-flight `vote` request, split at its two ledger
accesses: before the `Vote.objects.get` read, after the read (recording
whether a vote row was observed), and after the write. -/
inductive Phase where
  | start
  | observed (found : Bool)
  | done
deriving DecidableEq, Repr

/-- One in-flight `vote` request in the interleaving model. The choice id
is assumed already resolved (a valid choice of the question). -/
structure Session where
  user : Nat
  question_id : Nat
  cid : Nat
  phase : Phase
deriving DecidableEq, Repr

/-- The read half of the view's read-modify-write: `Vote.objects.get`
observes whether a row for the key exists in the current ledger. -/
def sessionRead (env : Env) (ledger : List Vote) (s : Session) : Session :=
  { s with phase := Phase.observed (ledger.any (matchKey env s.question_id s.user)) }

/-- The write half: `Vote.objects.create` (an INSERT — migration 0003
declares no uniqueness constraint that could reject it) when the read
observed no row, else reassign-and-save on the observed row's key. -/
def sessionWrite (env : Env) (ledger : List Vote) (s : Session) :
    List Vote × Session :=
  match s.phase with
  | Phase.observed false =>
      (ledger ++ [⟨s.cid, s.user⟩], { s with phase := Phase.done })
  | Phase.observed true =>
      (ledger.map (fun v =>
        if matchKey env s.question_id s.user v then { v with choice := s.cid } else v),
       { s with phase := Phase.done })
  | _ => (ledger, s)

/-- A question whose voting window closed five days ago
(`pub_date = now - 10 d`, `end_date = now - 5 d`, with `now = 0`). -/
def closedQuestion : Question := ⟨1, "closed", -864000, some (-432000)⟩

/-- Environment holding only `closedQuestion` and one choice for it. -/
def closedEnv : Env := ⟨[closedQuestion], [⟨1, 1, "c1"⟩]⟩

/-- Environment for the tally scenario: one question with two choices. -/
def tallyEnv : Env := ⟨[⟨1, "q", 0, none⟩], [⟨1, 1, "c1"⟩, ⟨2, 1, "c2"⟩]⟩

/-- A map that fixes every member of a list is the identity on it. -/
theorem map_fix {α : Type} (f : α → α) (l : List α) (h : ∀ x ∈ l, f x = x) :
    l.map f = l := by
  induction l with
  | nil => rfl
  | cons a t ih =>
    rw [List.map_cons, h a (List.mem_cons_self a t),
      ih (fun x hx => h x (List.mem_cons_of_mem a hx))]

/-- Filtering after a map that preserves the predicate and fixes the
selected elements gives back the original filtration. -/
theorem filter_map_fix {α : Type} (p : α → Bool) (f : α → α) (l : List α)
    (h : ∀ x ∈ l, p (f x) = p x ∧ (p x = true → f x = x)) :
    (l.map f).filter p = l.filter p := by
  induction l with
  | nil => rfl
  | cons a t ih =>
    have ha := h a (List.mem_cons_self a t)
    have iht := ih (fun x hx => h x (List.mem_cons_of_mem a hx))
    rw [List.map_cons, List.filter_cons, List.filter_cons, ha.1]
    cases hpa : p a with
    | false => simpa using iht
    | true => simp [ha.2 hpa, iht]

/-- A predicate-preserving map commutes with filtering. -/
theorem filter_map_comm {α : Type} (p : α → Bool) (f : α → α) (l : List α)
    (h : ∀ x ∈ l, p (f x) = p x) :
    (l.map f).filter p = (l.filter p).map f := by
  induction l with
  | nil => rfl
  | cons a t ih =>
    have ha := h a (List.mem_cons_self a t)
    have iht := ih (fun x hx => h x (List.mem_cons_of_mem a hx))
    rw [List.map_cons, List.filter_cons, List.filter_cons, ha]
    cases hpa : p a with
    | false => simpa using iht
    | true => simp [iht]

/-- Removing the rows selected by `q` does not disturb a filtration by a
predicate disjoint from `q`. -/
theorem filter_erase_disjoint {α : Type} (p q : α → Bool) (l : List α)
    (h : ∀ x, p x = true → q x = false) :
    (l.filter (fun x => !(q x))).filter p = l.filter p := by
  induction l with
  | nil => rfl
  | cons a t ih =>
    cases hqa : q a with
    | true =>
      have hpa : p a = false := by
        cases hpa : p a with
        | false => rfl
        | true => rw [h a hpa] at hqa; cases hqa
      simp [List.filter_cons, hqa, hpa, ih]
    | false =>
      cases hpa : p a with
      | false => simp [List.filter_cons, hqa, hpa, ih]
      | true => simp [List.filter_cons, hqa, hpa, ih]

/-- Nothing selected by `p` survives removing everything selected by `p`. -/
theorem filter_not_self {α : Type} (p : α → Bool) (l : List α) :
    (l.filter (fun x => !(p x))).filter p = [] := by
  apply List.filter_eq_nil_iff.mpr
  intro a ha
  have := (List.mem_filter.mp ha).2
  simp only [Bool.not_eq_true'] at this
  simp [this]

/-- `get_object_or_404(Question, pk=qid)` returns a question with id `qid`. -/
theorem get_question_id (env : Env) (qid : Nat) (q : Question)
    (h : get_question env qid = some q) : q.id = qid := by
  have := List.find?_some h
  simpa using this

/-- `question.choice_set.get(pk=cid)` returns a stored choice with id `cid`
belonging to the question. -/
theorem choice_set_get_spec (env : Env) (qid cid : Nat) (c : Choice)
    (h : choice_set_get env qid cid = some c) :
    c ∈ env.choices ∧ c.id = cid ∧ c.question = qid := by
  have h1 := List.find?_some h
  have h2 := List.mem_of_find?_eq_some h
  simp only [Bool.and_eq_true, beq_iff_eq] at h1
  exact ⟨h2, h1.1, h1.2⟩

/-- With pairwise-distinct choice primary keys, lookup by id is exact. -/
theorem find_id_of_nodup (l : List Choice) (hnd : (l.map Choice.id).Nodup) :
    ∀ c ∈ l, l.find? (fun ch => ch.id == c.id) = some c := by
  induction l with
  | nil => intro c hc; cases hc
  | cons a t ih =>
    intro c hc
    rw [List.map_cons, List.nodup_cons] at hnd
    rcases List.mem_cons.mp hc with rfl | hct
    · exact List.find?_cons_of_pos t (by simp)
    · have hne : a.id ≠ c.id := by
        intro he
        exact hnd.1 (he ▸ List.mem_map_of_mem Choice.id hct)
      rw [List.find?_cons_of_neg t (by simp [hne])]
      exact ih hnd.2 c hct

/-- With pairwise-distinct choice primary keys, the `choice__question` join
of a stored choice is its own question. -/
theorem choice_question_nodup (env : Env) (c : Choice)
    (hnd : (env.choices.map Choice.id).Nodup) (hc : c ∈ env.choices) :
    choice_question env c.id = some c.question := by
  unfold choice_question
  rw [find_id_of_nodup env.choices hnd c hc]
  rfl

/-- C3: `can_vote` equals `is_published` when `end_date` is absent, and
`is_published AND now <= end_date` (inclusive bound) when present, where
`is_published` is `pub_date <= now`. -/
theorem can_vote_spec (q : Question) (now : Int) :
    (q.end_date = none → can_vote q now = is_published q now) ∧
    (∀ e, q.end_date = some e →
      can_vote q now = (is_published q now && decide (now ≤ e))) ∧
    is_published q now = decide (q.pub_date ≤ now) := by
  refine ⟨fun h => ?_, fun e h => ?_, rfl⟩ <;> simp [can_vote, h]

/-- Witness for C3 at a concrete question and instant: `end_date = now`
still allows voting (inclusive bound). -/
theorem can_vote_spec_witness :
    (Question.mk 1 "q" 0 (some 5)).end_date = some 5 ∧
    can_vote (Question.mk 1 "q" 0 (some 5)) 5 =
      (is_published (Question.mk 1 "q" 0 (some 5)) 5 && decide ((5 : Int) ≤ 5)) :=
  ⟨rfl, (can_vote_spec (Question.mk 1 "q" 0 (some 5)) 5).2.1 5 rfl⟩

/-- C4: `was_published_recently` holds iff `pub_date` lies in the closed
interval `[now - one day, now]`. -/
theorem was_published_recently_spec (q : Question) (now : Int) :
    was_published_recently q now = true ↔
      (now - one_day ≤ q.pub_date ∧ q.pub_date ≤ now) := by
  simp [was_published_recently]

/-- C1: the `vote` view never evaluates `can_vote`. For the closed question
(`can_vote = false` at `now = 0`) a posted vote with a valid choice is
accepted: the view returns the success redirect and appends a row to the
vote table, where the spec requires `VotingClosed` and an unchanged ledger. -/
theorem vote_ignores_closed_window :
    can_vote closedQuestion 0 = false ∧
    vote closedEnv 7 1 (some 1) [] = (CastResult.ok, [⟨1, 7⟩]) := by
  constructor <;> rfl

/-- C8: `Choice.votes` is derived by counting vote rows. After the votes
u1→c1, u2→c1, u3→c2 the tally is {c1 ↦ 2, c2 ↦ 1}; after u1 re-votes to c2
it is {c1 ↦ 1, c2 ↦ 2}. -/
theorem tally_scenario :
    votes 1 (vote tallyEnv 3 1 (some 2)
      (vote tallyEnv 2 1 (some 1)
        (vote tallyEnv 1 1 (some 1) []).2).2).2 = 2 ∧
    votes 2 (vote tallyEnv 3 1 (some 2)
      (vote tallyEnv 2 1 (some 1)
        (vote tallyEnv 1 1 (some 1) []).2).2).2 = 1 ∧
    votes 1 (vote tallyEnv 1 1 (some 2)
      (vote tallyEnv 3 1 (some 2)
        (vote tallyEnv 2 1 (some 1)
          (vote tallyEnv 1 1 (some 1) []).2).2).2).2 = 1 ∧
    votes 2 (vote tallyEnv 1 1 (some 2)
      (vote tallyEnv 3 1 (some 2)
        (vote tallyEnv 2 1 (some 1)
          (vote tallyEnv 1 1 (some 1) []).2).2).2).2 = 2 := by
  refine ⟨?_, ?_, ?_, ?_⟩ <;> rfl

/-- Any non-successful outcome of the `vote` view leaves the ledger intact. -/
theorem vote_not_ok (env : Env) (u qid : Nat) (post : Option Nat) (l : List Vote)
    (h : (vote env u qid post l).1 ≠ CastResult.ok) :
    (vote env u qid post l).2 = l := by
  rcases hq0 : get_question env qid with _ | q
  · simp [vote, hq0]
  · rcases hr : post_resolve env q.id post with _ | c
    · simp [vote, hq0, hr]
    · rcases hf : l.filter (matchKey env q.id u) with _ | ⟨v, _ | ⟨w, t⟩⟩
      · exact absurd (by simp [vote, hq0, hr, hf]) h
      · exact absurd (by simp [vote, hq0, hr, hf]) h
      · simp [vote, hq0, hr, hf]

/-- A successful `vote` found its question and resolved its posted choice. -/
theorem vote_ok_resolves (env : Env) (u qid : Nat) (post : Option Nat)
    (l : List Vote) (h : (vote env u qid post l).1 = CastResult.ok) :
    ∃ q c, get_question env qid = some q ∧ post_resolve env q.id post = some c := by
  rcases hq0 : get_question env qid with _ | q
  · rw [vote, hq0] at h; cases h
  · rcases hr : post_resolve env q.id post with _ | c
    · rw [vote, hq0] at h; simp [hr] at h
    · exact ⟨q, c, rfl, hr⟩


/-- A `vote` request for a key holding at most one row succeeds and leaves
exactly the row (resolved choice, user) for that key. -/
theorem vote_ok_key (env : Env) (u qid : Nat) (post : Option Nat) (l : List Vote)
    (c : Choice) (hnd : (env.choices.map Choice.id).Nodup)
    (hq : (get_question env qid).isSome)
    (hres : post_resolve env qid post = some c)
    (hwf : (l.filter (matchKey env qid u)).length ≤ 1) :
    (vote env u qid post l).1 = CastResult.ok ∧
    ((vote env u qid post l).2).filter (matchKey env qid u) = [⟨c.id, u⟩] := by
  rcases hq0 : get_question env qid with _ | q
  · rw [hq0] at hq; cases hq
  · have hqid := get_question_id env qid q hq0
    subst hqid
    rcases post with _ | cid
    · cases hres
    · have hcg : choice_set_get env q.id cid = some c := hres
      obtain ⟨hcmem, hcid, hcq⟩ := choice_set_get_spec env q.id cid c hcg
      have hcq' : choice_question env c.id = some c.question :=
        choice_question_nodup env c hnd hcmem
      have hkey_new : matchKey env q.id u ⟨c.id, u⟩ = true := by
        simp [matchKey, hcq', hcq]
      rcases hf : l.filter (matchKey env q.id u) with _ | ⟨v, _ | ⟨w, t⟩⟩
      · refine ⟨by simp [vote, post_resolve, hq0, hcg, hf], ?_⟩
        simp only [vote, post_resolve, hq0, hcg, hf]
        rw [List.filter_append, hf]
        simp [hkey_new]
      · have hv : matchKey env q.id u v = true := by
          have hvmem : v ∈ l.filter (matchKey env q.id u) := by
            rw [hf]; exact List.mem_singleton.mpr rfl
          exact (List.mem_filter.mp hvmem).2
        have hvuser : v.user = u := by
          simp only [matchKey, Bool.and_eq_true, beq_iff_eq] at hv
          exact hv.1
        refine ⟨by simp [vote, post_resolve, hq0, hcg, hf], ?_⟩
        simp only [vote, post_resolve, hq0, hcg, hf]
        have hcomm : ∀ x ∈ l, matchKey env q.id u
            (if matchKey env q.id u x then { x with choice := c.id } else x)
            = matchKey env q.id u x := by
          intro x hx
          cases hkx : matchKey env q.id u x with
          | false => simp [hkx]
          | true =>
            have hxu : x.user = u := by
              simp only [matchKey, Bool.and_eq_true, beq_iff_eq] at hkx
              exact hkx.1
            simp [hkx, matchKey, hcq', hcq, hxu]
        rw [filter_map_comm _ _ _ hcomm, hf]
        simp only [List.map_cons, List.map_nil, hv, if_true]
        rw [hvuser]
      · rw [hf] at hwf
        simp at hwf

/-- A `vote` request for one key never changes the rows of a different key. -/
theorem vote_frame (env : Env) (u' qid' : Nat) (post : Option Nat) (l : List Vote)
    (u q : Nat) (hnd : (env.choices.map Choice.id).Nodup)
    (hkey : ¬(u' = u ∧ qid' = q)) :
    ((vote env u' qid' post l).2).filter (matchKey env q u)
      = l.filter (matchKey env q u) := by
  rcases hq0 : get_question env qid' with _ | q0
  · simp [vote, hq0]
  · have hqid := get_question_id env qid' q0 hq0
    subst hqid
    rcases hr : post_resolve env q0.id post with _ | c
    · simp [vote, hq0, hr]
    · rcases post with _ | cid
      · cases hr
      · have hcg : choice_set_get env q0.id cid = some c := hr
        obtain ⟨hcmem, hcid, hcq⟩ := choice_set_get_spec env q0.id cid c hcg
        have hcq' : choice_question env c.id = some c.question :=
          choice_question_nodup env c hnd hcmem
        rcases hf : l.filter (matchKey env q0.id u') with _ | ⟨v, _ | ⟨w, t⟩⟩
        · simp only [vote, post_resolve, hq0, hcg, hf]
          rw [List.filter_append]
          have hnew : matchKey env q u ⟨c.id, u'⟩ = false := by
            cases hval : matchKey env q u ⟨c.id, u'⟩ with
            | false => rfl
            | true =>
              exfalso
              apply hkey
              simp only [matchKey, Bool.and_eq_true, beq_iff_eq, hcq', hcq,
                Option.some_inj] at hval
              exact hval
          simp [hnew]
        · simp only [vote, post_resolve, hq0, hcg, hf]
          apply filter_map_fix
          intro x hx
          cases hm : matchKey env q0.id u' x with
          | false => simp [hm]
          | true =>
            have hx2 : x.user = u' ∧ choice_question env x.choice = some q0.id := by
              simp only [matchKey, Bool.and_eq_true, beq_iff_eq] at hm
              exact hm
            constructor
            · simp [hm, matchKey, hcq', hcq, hx2.2]
            · intro hkx
              exfalso
              apply hkey
              simp only [matchKey, Bool.and_eq_true, beq_iff_eq] at hkx
              exact ⟨hx2.1.symm.trans hkx.1,
                Option.some.inj (hx2.2.symm.trans hkx.2)⟩
        · simp [vote, post_resolve, hq0, hcg, hf]

/-- C6: for an existing question, when the submitted choice id belongs to no
choice of that question (it does not exist, or belongs to a different
question), the `vote` view reports the invalid-choice error and the vote
table is not modified. -/
theorem vote_invalid_choice (env : Env) (u qid cid : Nat) (l : List Vote)
    (hq : (get_question env qid).isSome)
    (hc : ∀ ch ∈ env.choices, ¬(ch.id = cid ∧ ch.question = qid)) :
    vote env u qid (some cid) l = (CastResult.invalidChoice, l) := by
  rcases hq0 : get_question env qid with _ | q
  · rw [hq0] at hq; cases hq
  · have hqid := get_question_id env qid q hq0
    subst hqid
    have hnone : choice_set_get env q.id cid = none := by
      apply List.find?_eq_none.mpr
      intro ch hch
      simp only [Bool.and_eq_true, beq_iff_eq, not_and]
      intro h1 h2
      exact hc ch hch ⟨h1, h2⟩
    simp [vote, post_resolve, hq0, hnone]

/-- Witness for C6: posting the nonexistent choice id 5 against the tally
environment's question 1 is rejected without touching the ledger. -/
theorem vote_invalid_choice_witness :
    vote tallyEnv 9 1 (some 5) [⟨1, 3⟩] = (CastResult.invalidChoice, [⟨1, 3⟩]) :=
  vote_invalid_choice tallyEnv 9 1 5 [⟨1, 3⟩] (by decide) (by decide)

/-- C7: for an existing question, `clear` with no prior vote for the key
reports "nothing to clear" and leaves the vote table untouched; with exactly
one prior vote it succeeds, removes that vote (the key transitions to the
no-vote state) and leaves every other (user, question) key's rows intact. -/
theorem clear_spec (env : Env) (u qid : Nat) (l : List Vote)
    (hq : (get_question env qid).isSome) :
    (l.filter (matchKey env qid u) = [] →
      clear env u qid l = (ClearResult.nothingToClear, l)) ∧
    (∀ v0, l.filter (matchKey env qid u) = [v0] →
      (clear env u qid l).1 = ClearResult.ok ∧
      ((clear env u qid l).2).filter (matchKey env qid u) = [] ∧
      (∀ u' q', ¬(u' = u ∧ q' = qid) →
        ((clear env u qid l).2).filter (matchKey env q' u')
          = l.filter (matchKey env q' u'))) := by
  rcases hq0 : get_question env qid with _ | q
  · rw [hq0] at hq; cases hq
  · have hqid := get_question_id env qid q hq0
    subst hqid
    constructor
    · intro hf
      simp [clear, hq0, hf]
    · intro v0 hf
      refine ⟨by simp [clear, hq0, hf], ?_, ?_⟩
      · simp only [clear, hq0, hf]
        exact filter_not_self (matchKey env q.id u) l
      · intro u' q' hk
        simp only [clear, hq0, hf]
        apply filter_erase_disjoint
        intro x hx
        cases hm : matchKey env q.id u x with
        | false => rfl
        | true =>
          exfalso
          apply hk
          simp only [matchKey, Bool.and_eq_true, beq_iff_eq] at hx hm
          exact ⟨hx.1.symm.trans hm.1, Option.some.inj (hx.2.symm.trans hm.2)⟩

/-- Witness for C7: clearing user 9's sole vote on question 1 succeeds and
empties the key's rows. -/
theorem clear_spec_witness :
    (clear tallyEnv 9 1 [⟨1, 9⟩]).1 = ClearResult.ok ∧
    ((clear tallyEnv 9 1 [⟨1, 9⟩]).2).filter (matchKey tallyEnv 1 9) = [] := by
  have h := (clear_spec tallyEnv 9 1 [⟨1, 9⟩] (by decide)).2 ⟨1, 9⟩ (by decide)
  exact ⟨h.1, h.2.1⟩

/-- C10: under the at-most-one-vote invariant for the key, the two read-side
queries agree — `cur_user_voted` holds iff `cur_user_choice` returns a
choice — and with no vote `cur_user_choice` returns `none` (no error). -/
theorem cur_user_queries_agree (env : Env) (qid u : Nat) (l : List Vote)
    (_hwf : (l.filter (matchKey env qid u)).length ≤ 1) :
    (cur_user_voted env qid u l = true ↔
      (cur_user_choice env qid u l).isSome = true) ∧
    (cur_user_voted env qid u l = false → cur_user_choice env qid u l = none) := by
  rcases hf : l.filter (matchKey env qid u) with _ | ⟨v, vs⟩
  · have hnone : ∀ x ∈ l, ¬ matchKey env qid u x = true :=
      List.filter_eq_nil_iff.mp hf
    have hv : cur_user_voted env qid u l = false := by
      simp only [cur_user_voted]
      rw [List.any_eq_false]
      exact hnone
    have hcc : cur_user_choice env qid u l = none := by
      simp [cur_user_choice, hf]
    rw [hv, hcc]
    simp
  · have hvt : cur_user_voted env qid u l = true := by
      have hvmem : v ∈ l.filter (matchKey env qid u) := by
        rw [hf]; exact List.mem_cons_self v vs
      have := List.mem_filter.mp hvmem
      simp only [cur_user_voted]
      rw [List.any_eq_true]
      exact ⟨v, this.1, this.2⟩
    have hcc : cur_user_choice env qid u l = some v.choice := by
      simp [cur_user_choice, hf]
    rw [hvt, hcc]
    simp

/-- Witness for C10: user 9 with a single vote on question 1 is reported as
having voted and as having a current choice. -/
theorem cur_user_queries_agree_witness :
    cur_user_voted tallyEnv 1 9 [⟨1, 9⟩] = true ↔
      (cur_user_choice tallyEnv 1 9 [⟨1, 9⟩]).isSome = true :=
  (cur_user_queries_agree tallyEnv 1 9 [⟨1, 9⟩] (by decide)).1

/-- C5 fails on arbitrary ledger states: from a state already holding two
rows for the (user, question) key — representable, since the schema has no
uniqueness constraint — casting the same valid vote twice leaves two rows,
not exactly one (`Vote.objects.get` raises and the view changes nothing). -/
theorem vote_idempotent_counterexample :
    ¬ ((((vote tallyEnv 7 1 (some 1)
        (vote tallyEnv 7 1 (some 1) [⟨1, 7⟩, ⟨1, 7⟩]).2).2).filter
          (matchKey tallyEnv 1 7)).length = 1) := by
  decide

/-- C5 (amended): for an existing question and a valid choice, from any
ledger state holding at most one vote for the (user, question) key, casting
the same vote twice leaves the same ledger as casting it once — exactly one
vote row for the key, holding that choice. -/
theorem vote_idempotent (env : Env) (u qid cid : Nat) (c : Choice) (l : List Vote)
    (hnd : (env.choices.map Choice.id).Nodup)
    (hq : (get_question env qid).isSome)
    (hc : choice_set_get env qid cid = some c)
    (hwf : (l.filter (matchKey env qid u)).length ≤ 1) :
    (vote env u qid (some cid) ((vote env u qid (some cid) l).2)).2
        = (vote env u qid (some cid) l).2 ∧
    ((vote env u qid (some cid) l).2).filter (matchKey env qid u) = [⟨cid, u⟩] := by
  obtain ⟨hcmem, hcid, hcq⟩ := choice_set_get_spec env qid cid c hc
  have hres : post_resolve env qid (some cid) = some c := hc
  have h1 := vote_ok_key env u qid (some cid) l c hnd hq hres hwf
  have hfil : ((vote env u qid (some cid) l).2).filter (matchKey env qid u)
      = [⟨cid, u⟩] := by
    rw [h1.2, hcid]
  refine ⟨?_, hfil⟩
  rcases hq0 : get_question env qid with _ | q
  · rw [hq0] at hq; cases hq
  · have hqid := get_question_id env qid q hq0
    subst hqid
    obtain ⟨l1, hl1⟩ : ∃ l1, (vote env u q.id (some cid) l).2 = l1 := ⟨_, rfl⟩
    rw [hl1] at hfil ⊢
    simp only [vote, post_resolve, hq0, hc, hfil]
    apply map_fix
    intro x hx
    cases hkx : matchKey env q.id u x with
    | false => simp [hkx]
    | true =>
      have hxmem : x ∈ l1.filter (matchKey env q.id u) :=
        List.mem_filter.mpr ⟨hx, hkx⟩
      rw [hfil] at hxmem
      have hxe : x = ⟨cid, u⟩ := List.mem_singleton.mp hxmem
      subst hxe
      simp [hkx, hcid]

/-- Witness for the amended C5: a first-time vote cast twice for choice 2 of
question 1 leaves one row for the key, holding choice 2. -/
theorem vote_idempotent_witness :
    (vote tallyEnv 4 1 (some 2) ((vote tallyEnv 4 1 (some 2) []).2)).2
        = (vote tallyEnv 4 1 (some 2) []).2 ∧
    ((vote tallyEnv 4 1 (some 2) []).2).filter (matchKey tallyEnv 1 4) = [⟨2, 4⟩] :=
  vote_idempotent tallyEnv 4 1 2 ⟨2, 1, "c2"⟩ [] (by decide) (by decide) rfl
    (by decide)

/-- Invariant preservation for tracked runs: if the ledger holds at most one
row for the key `(q, u)` and the tracked last successful choice describes
the key's row, both facts survive any further sequence of `vote` requests. -/
theorem stepTrack_inv (env : Env) (u q : Nat)
    (hnd : (env.choices.map Choice.id).Nodup) :
    ∀ (calls : List Call) (l : List Vote) (last : Option Nat),
      (l.filter (matchKey env q u)).length ≤ 1 →
      (∀ c0, last = some c0 → l.filter (matchKey env q u) = [⟨c0, u⟩]) →
      ((((calls.foldl (stepTrack env u q) (l, last)).1.filter
          (matchKey env q u)).length ≤ 1) ∧
        ∀ c0, (calls.foldl (stepTrack env u q) (l, last)).2 = some c0 →
          (calls.foldl (stepTrack env u q) (l, last)).1.filter (matchKey env q u)
            = [⟨c0, u⟩]) := by
  intro calls
  induction calls with
  | nil => intro l last h1 h2; exact ⟨h1, h2⟩
  | cons a rest ih =>
    intro l last h1 h2
    rw [List.foldl_cons]
    by_cases hok : (vote env a.user a.question_id a.post l).1 = CastResult.ok
        ∧ a.user = u ∧ a.question_id = q
    · have hstep : stepTrack env u q (l, last) a
          = ((vote env a.user a.question_id a.post l).2,
             resolve_choice env q a.post) := by
        simp only [stepTrack]
        rw [if_pos hok]
      rw [hstep]
      obtain ⟨hco, hu, hq'⟩ := hok
      rw [hu, hq'] at hco
      obtain ⟨q0, c0, hq0, hres0⟩ := vote_ok_resolves env u q a.post l hco
      have hq0id := get_question_id env q q0 hq0
      have hqsome : (get_question env q).isSome := by rw [hq0]; rfl
      have hres : post_resolve env q a.post = some c0 := by
        rw [← hq0id]; exact hres0
      have hkey := vote_ok_key env u q a.post l c0 hnd hqsome hres h1
      have hresolve : resolve_choice env q a.post = some c0.id := by
        simp [resolve_choice, hres]
      apply ih
      · rw [hu, hq', hkey.2]
        simp
      · intro c1 hc1
        rw [hresolve] at hc1
        have := Option.some.inj hc1
        subst this
        rw [hu, hq']
        exact hkey.2
    · have hstep : stepTrack env u q (l, last) a
          = ((vote env a.user a.question_id a.post l).2, last) := by
        simp only [stepTrack]
        rw [if_neg hok]
      rw [hstep]
      have hsamefilter : ((vote env a.user a.question_id a.post l).2).filter
          (matchKey env q u) = l.filter (matchKey env q u) := by
        by_cases hsame : a.user = u ∧ a.question_id = q
        · have hnot : (vote env a.user a.question_id a.post l).1
              ≠ CastResult.ok := fun hvo => hok ⟨hvo, hsame.1, hsame.2⟩
          rw [vote_not_ok env a.user a.question_id a.post l hnot]
        · exact vote_frame env a.user a.question_id a.post l u q hnd hsame
      apply ih
      · rw [hsamefilter]; exact h1
      · intro c1 hc1
        rw [hsamefilter]
        exact h2 c1 hc1

/-- C2: starting from an empty vote table, after any finite sequence of
`vote` requests the table holds at most one row for any (user, question)
key; and whenever some request for that key succeeded, the key's single row
holds the choice of the most recent successful request for it. -/
theorem at_most_one_vote_last_write (env : Env) (u q : Nat)
    (hnd : (env.choices.map Choice.id).Nodup) (calls : List Call) :
    ((((calls.foldl (stepTrack env u q) ([], none)).1.filter
        (matchKey env q u)).length ≤ 1) ∧
      ∀ c0, (calls.foldl (stepTrack env u q) ([], none)).2 = some c0 →
        (calls.foldl (stepTrack env u q) ([], none)).1.filter (matchKey env q u)
          = [⟨c0, u⟩]) :=
  stepTrack_inv env u q hnd calls [] none (by simp)
    (fun c0 h => by cases h)

/-- Witness for C2: user 4 votes for choice 1 then re-votes for choice 2 of
question 1; the key holds one row and it records choice 2. -/
theorem at_most_one_vote_last_write_witness :
    ((((([⟨4, 1, some 1⟩, ⟨4, 1, some 2⟩] : List Call).foldl
        (stepTrack tallyEnv 4 1) ([], none)).1.filter
          (matchKey tallyEnv 1 4)).length ≤ 1) ∧
      ∀ c0, (([⟨4, 1, some 1⟩, ⟨4, 1, some 2⟩] : List Call).foldl
          (stepTrack tallyEnv 4 1) ([], none)).2 = some c0 →
        (([⟨4, 1, some 1⟩, ⟨4, 1, some 2⟩] : List Call).foldl
          (stepTrack tallyEnv 4 1) ([], none)).1.filter (matchKey tallyEnv 1 4)
            = [⟨c0, 4⟩]) :=
  at_most_one_vote_last_write tallyEnv 4 1 (by decide)
    [⟨4, 1, some 1⟩, ⟨4, 1, some 2⟩]

/-- C9: two simultaneous first-time `vote` requests by user 7 for question 1
(choices 1 and 2), interleaved as read–read–write–write, both observe "no
existing vote" and both INSERT — nothing serializes the read-modify-write
per key and migration 0003 declares no (user, question) uniqueness
constraint — leaving two vote rows for the key instead of exactly one. -/
theorem concurrent_first_votes_duplicate :
    (sessionWrite tallyEnv
        (sessionWrite tallyEnv [] (sessionRead tallyEnv [] ⟨7, 1, 1, Phase.start⟩)).1
        (sessionRead tallyEnv [] ⟨7, 1, 2, Phase.start⟩)).1
      = [⟨1, 7⟩, ⟨2, 7⟩] ∧
    (((sessionWrite tallyEnv
        (sessionWrite tallyEnv [] (sessionRead tallyEnv [] ⟨7, 1, 1, Phase.start⟩)).1
        (sessionRead tallyEnv [] ⟨7, 1, 2, Phase.start⟩)).1).filter
          (matchKey tallyEnv 1 7)).length = 2 := by
  exact ⟨rfl, rfl⟩
